import Mathlib

/-!
# Verification of the iptest probing scripts

Shallow embedding of the probing logic of the repository (`src/nodejs/vless.js`,
`src/nodejs/iptest.js`, `src/ip_tq.js`, `src/vless_test.js`,
`src/unnamed/part_000`) together with proofs and refutations of the
specification's claims about it.

Conventions:
* JS numbers that are used as non-negative integers are modelled as `Nat`.
* JS strings are modelled as Lean `String` (or as lists of UTF-16 code units,
  themselves `Nat`, where the byte/code-unit distinction matters).
* Byte buffers are modelled as `List Nat` with entries `< 256`.
* The event-driven parts (scheduler, per-attempt socket callbacks, pool) are
  modelled as explicit state-transition functions; the nondeterministic
  network outcomes are oracle parameters (`tcpOk`, `tlsOk`, event lists).
* JS `Array.prototype.sort` with a comparator is specified to produce a stable
  sort; it is modelled by the stable `List.insertionSort`.
-/

namespace IpTest

/-! ## vless.js: per-endpoint test results and classification -/

/-- `TESTS_PER_IP` from `src/nodejs/vless.js` (both programs in the file): the
repetition count R per endpoint. -/
def TESTS_PER_IP : Nat := 4

/-- `MAX_CONCURRENT` from `src/nodejs/vless.js`: the concurrency limit. -/
def MAX_CONCURRENT : Nat := 50

/-- One entry of `testResults` in `src/nodejs/vless.js` (`getTestResult`). -/
structure TestResult where
  location : String
  ip : String
  port : Nat
  successes : Nat
  failures : Nat
  latencies : List Nat
  completed : Bool
deriving DecidableEq

/-- `isPassed` from `src/nodejs/vless.js` lines 92-96 (for an existing
result record): `result.successes === TESTS_PER_IP`. -/
def isPassed (r : TestResult) : Bool := r.successes == TESTS_PER_IP

/-- `isTestCompleted` from `src/nodejs/vless.js` lines 85-89 (for an existing
result record): `result.successes + result.failures >= TESTS_PER_IP`. -/
def isTestCompleted (r : TestResult) : Bool := TESTS_PER_IP ≤ r.successes + r.failures

/-- `calculateAverage` from `src/nodejs/vless.js` lines 255-259 and 825-829:
`latencies.length === 0` returns `0`, otherwise
`Math.round(sum / latencies.length)`.  `Math.round(s/n)` for non-negative
integers `s`, `n` is `⌊(2*s + n) / (2*n)⌋`, written here with `Nat` division. -/
def calculateAverage (latencies : List Nat) : Nat :=
  if latencies.length = 0 then 0
  else (2 * latencies.sum + latencies.length) / (2 * latencies.length)

/-- An element of the `passedIPs` array built by `saveResults`
(`src/nodejs/vless.js` lines 308-315 and 872-883): the spread copy of a test
result augmented with `avgLatency: calculateAverage(result.latencies)`. -/
structure PassedIP where
  res : TestResult
  avgLatency : Nat
deriving DecidableEq

/-- The augmentation `{ ...result, avgLatency: calculateAverage(result.latencies) }`. -/
def augmentPassed (r : TestResult) : PassedIP :=
  ⟨r, calculateAverage r.latencies⟩

/-- The `passedIPs` collection of `saveResults` (`src/nodejs/vless.js`
lines 306-315 and 870-883): exactly the results with
`successes === TESTS_PER_IP`, each augmented with its average latency. -/
def passedIPs (rs : List TestResult) : List PassedIP :=
  (rs.filter (fun r => r.successes == TESTS_PER_IP)).map augmentPassed

/-- The comparator `(a, b) => a.avgLatency - b.avgLatency` of
`passedIPs.sort` as an ordering relation. -/
def latLe (a b : PassedIP) : Prop := a.avgLatency ≤ b.avgLatency

instance : DecidableRel latLe := fun a b => Nat.decLe a.avgLatency b.avgLatency

instance : IsTotal PassedIP latLe := ⟨fun x y => Nat.le_total x.avgLatency y.avgLatency⟩

instance : IsTrans PassedIP latLe := ⟨fun _ _ _ h h' => Nat.le_trans h h'⟩

/-- `passedIPs.sort((a, b) => a.avgLatency - b.avgLatency)`
(`src/nodejs/vless.js` lines 318 and 885): a stable ascending sort by
average latency. -/
def sortedPassed (rs : List TestResult) : List PassedIP :=
  (passedIPs rs).insertionSort latLe

/-- `location.replace(/\d+$/, "").trim()` (`src/nodejs/vless.js` lines 325,
891): strip one maximal run of trailing ASCII digits, then trim whitespace. -/
def countryBase (s : String) : String :=
  let noDigits := ((s.data.reverse.dropWhile (fun c => '0' ≤ c ∧ c ≤ '9')).reverse)
  let trimmed := ((noDigits.dropWhile (fun c => c = ' ')).reverse.dropWhile (fun c => c = ' ')).reverse
  ⟨trimmed⟩

/-- One step of building `countryGroups` (`src/nodejs/vless.js` lines
323-334, 889-899): push the item onto the array stored under its key,
creating the key at the end on first use, as a JS object does. -/
def insertGroup (acc : List (String × List PassedIP)) (c : String) (x : PassedIP) :
    List (String × List PassedIP) :=
  if acc.any (fun p => p.1 == c) then
    acc.map (fun p => if p.1 == c then (p.1, p.2 ++ [x]) else p)
  else acc ++ [(c, [x])]

/-- The `countryGroups` object of `saveResults`: items of the (sorted)
`passedIPs` list pushed under `countryBase` of their location, in order. -/
def countryGroups (items : List PassedIP) : List (String × List PassedIP) :=
  items.foldl (fun acc x => insertGroup acc (countryBase x.res.location) x) []

/-- Lookup of one group in the `countryGroups` object (missing key reads as
an empty group). -/
def groupLookup (acc : List (String × List PassedIP)) (c : String) : List PassedIP :=
  match acc.find? (fun p => p.1 == c) with
  | some p => p.2
  | none => []

/-! ## vless.js: VLESS handshake codec (second program in the file) -/

/-- The configured UUID (`vlessConfig.uuid`, `src/nodejs/vless.js` line 547). -/
def vlessUuid : String := "00000000-0000-4000-8000-000000000000"

/-- The hardcoded target port of `generateVLESSHandshake`
(`src/nodejs/vless.js` line 592). -/
def vlessTargetPort : Nat := 80

/-- Value of one hex character as in `parseInt(c, 16)` (valid inputs). -/
def hexCharVal (c : Char) : Nat :=
  if '0' ≤ c ∧ c ≤ '9' then c.toNat - 48
  else if 'a' ≤ c ∧ c ≤ 'f' then c.toNat - 87
  else if 'A' ≤ c ∧ c ≤ 'F' then c.toNat - 55
  else 0

/-- Successive pairs of hex characters to bytes, as the loop
`for (let i = 0; i < 32; i += 2) bytes[i/2] = parseInt(uuidStr.substring(i, i+2), 16)`. -/
def hexPairsToBytes : List Char → List Nat
  | c1 :: c2 :: rest => (16 * hexCharVal c1 + hexCharVal c2) :: hexPairsToBytes rest
  | _ => []

/-- `uuidToBytes` from `src/nodejs/vless.js` lines 561-568: drop the dashes,
parse 16 hex pairs. -/
def uuidToBytes (uuid : String) : List Nat :=
  hexPairsToBytes (uuid.data.filter (fun c => c ≠ '-'))

/-- `generateVLESSHandshake` from `src/nodejs/vless.js` lines 579-623:
version byte 0, the 16 UUID bytes, addon length 0, the target port as two
big-endian bytes (`DataView.setUint16`), address type 1 (IPv4), and the
four bytes of 1.1.1.1, concatenated in offset order. -/
def generateVLESSHandshake : List Nat :=
  [0] ++ uuidToBytes vlessUuid ++ [0]
    ++ [vlessTargetPort / 256, vlessTargetPort % 256] ++ [1] ++ [1, 1, 1, 1]

/-! ## vless.js: per-attempt completion automaton (second program)

`createWebSocketConnection` (`src/nodejs/vless.js` lines 641-782) registers a
timeout and `message` / `close` / `error` handlers around one WebSocket
attempt, sharing a `testCompleted` flag. Each handler that actually runs
`handleTestCompletion` is one "completion path".  The automaton below records
the flag and the number of completion paths that have run. -/

/-- Events that can reach one attempt's callbacks: the 15s timeout firing,
the socket `close` event, a valid handshake-response `message`, and the
`error` event. -/
inductive WsEvent
  | timeout
  | close
  | message
  | wsError
deriving DecidableEq

/-- Attempt-local state: the `testCompleted` flag and how many times
`handleTestCompletion` has been invoked for this attempt. -/
structure AttemptState where
  testCompleted : Bool
  completions : Nat
deriving DecidableEq

/-- The handlers of `src/nodejs/vless.js` lines 681-687 (timeout), 740-747
(`close`), 707-738 (`message`, valid-response branch) and 749-758 (`error`):
the timeout and `close` handlers call `handleTestCompletion` when
`!testCompleted` but never set the flag; the `message` and `error` handlers
set it first. -/
def vlessAttemptStep (s : AttemptState) : WsEvent → AttemptState
  | .timeout => if s.testCompleted then s else { s with completions := s.completions + 1 }
  | .close => if s.testCompleted then s else { s with completions := s.completions + 1 }
  | .message =>
      if s.testCompleted then s
      else { testCompleted := true, completions := s.completions + 1 }
  | .wsError =>
      if s.testCompleted then s
      else { testCompleted := true, completions := s.completions + 1 }

/-- A fresh attempt: `let testCompleted = false` and no completion yet. -/
def attemptInit : AttemptState := ⟨false, 0⟩

/-! ## vless.js: concurrency scheduler (second program)

Module state of `src/nodejs/vless.js`: `testResults` (projected to the
per-endpoint success/failure counters), `completedTests`,
`activeConnections`, `nextTestIndex`, plus the implicit sets of in-flight
attempts and scheduled re-round timers.  Endpoints are indexed by their
position in `ipPortList`. -/

structure SchedState where
  /-- `(successes, failures)` per endpoint index. -/
  results : List (Nat × Nat)
  completedTests : Nat
  activeConnections : Nat
  nextTestIndex : Nat
  /-- endpoint indices with an attempt in flight. -/
  running : List Nat
  /-- endpoint indices with a scheduled `setTimeout` re-round. -/
  pending : List Nat
deriving DecidableEq

/-- `getTestResult` projection: counters of endpoint `i`. -/
def resultAt (st : SchedState) (i : Nat) : Nat × Nat := st.results.getD i (0, 0)

/-- Entry of `createWebSocketConnection` (`src/nodejs/vless.js` line 642):
`activeConnections++` and the attempt goes in flight.  No concurrency check
happens here. -/
def startConnection (st : SchedState) (i : Nat) : SchedState :=
  { st with activeConnections := st.activeConnections + 1, running := st.running ++ [i] }

/-- The `while` loop of `startNextTest` (`src/nodejs/vless.js` lines
831-853), with explicit fuel (the loop advances `nextTestIndex` every
iteration, so `results.length - nextTestIndex` iterations suffice): while
`activeConnections < MAX_CONCURRENT && nextTestIndex < ipPortList.length`,
start the endpoint at `nextTestIndex` if it has not been started, and
advance `nextTestIndex`. -/
def startNextTestAux : Nat → SchedState → SchedState
  | 0, st => st
  | fuel + 1, st =>
    if st.activeConnections < MAX_CONCURRENT ∧ st.nextTestIndex < st.results.length then
      let sf := resultAt st st.nextTestIndex
      let st1 := if sf.1 + sf.2 = 0 then startConnection st st.nextTestIndex else st
      startNextTestAux fuel { st1 with nextTestIndex := st1.nextTestIndex + 1 }
    else st

/-- `startNextTest` from `src/nodejs/vless.js` lines 831-853. -/
def startNextTest (st : SchedState) : SchedState :=
  startNextTestAux (st.results.length - st.nextTestIndex) st

/-- `handleTestCompletion` from `src/nodejs/vless.js` lines 784-823
(counter-relevant part): update the endpoint's tally, `activeConnections--`,
`completedTests++`, schedule the next round via `setTimeout` when the tally
is below `TESTS_PER_IP`, then run `startNextTest`. -/
def handleTestCompletion (st : SchedState) (i : Nat) (success : Bool) : SchedState :=
  let sf := resultAt st i
  let sf1 := if success then (sf.1 + 1, sf.2) else (sf.1, sf.2 + 1)
  let st1 := { st with
    results := st.results.set i sf1
    activeConnections := st.activeConnections - 1
    completedTests := st.completedTests + 1 }
  let st2 :=
    if sf1.1 + sf1.2 < TESTS_PER_IP then { st1 with pending := st1.pending ++ [i] } else st1
  startNextTest st2

/-- Interleaving events: an in-flight attempt completes (one completion path
runs, with outcome `success`), or a scheduled re-round timer fires.  A fired
timer calls `createWebSocketConnection` directly (`src/nodejs/vless.js`
lines 810-814) with no concurrency check. -/
inductive SchedEvent
  | finish (i : Nat) (success : Bool)
  | fireRetry (i : Nat)
deriving DecidableEq

/-- One scheduler step; `none` when the event is not enabled. -/
def schedStep (st : SchedState) : SchedEvent → Option SchedState
  | .finish i success =>
    if i ∈ st.running then
      some (handleTestCompletion { st with running := st.running.erase i } i success)
    else none
  | .fireRetry i =>
    if i ∈ st.pending then
      some (startConnection { st with pending := st.pending.erase i } i)
    else none

/-- Run a list of interleaving events. -/
def schedRun (st : SchedState) : List SchedEvent → Option SchedState
  | [] => some st
  | e :: es =>
    match schedStep st e with
    | some st1 => schedRun st1 es
    | none => none

/-- `main` → `startConcurrentTests` → `startNextTest` on a fresh run with
`n` endpoints. -/
def schedInit (n : Nat) : SchedState :=
  startNextTest
    { results := List.replicate n (0, 0), completedTests := 0, activeConnections := 0
      nextTestIndex := 0, running := [], pending := [] }

/-! ## iptest.js / ip_tq.js: connection pools

A pooled connection (`{ socket, tlsSocket, lastUsed }`) is modelled by a
record carrying an identity for the underlying socket object, the
`socket.destroyed` flag, whether `tlsSocket` has been assigned, and
`lastUsed`.  Network outcomes (`TCP connect`, `TLS handshake`) are oracle
booleans.  The `Map` keyed by `"ip:port"` is an association list in
insertion order, as JS `Map` iteration is. -/

structure ConnEntry where
  connId : Nat
  destroyed : Bool
  hasTls : Bool
  lastUsed : Nat
deriving DecidableEq

/-- Typed acquire failures: `TCP连接失败/超时` vs `TLS握手失败/超时`. -/
inductive PoolError
  | tcpError
  | tlsError
deriving DecidableEq

/-- `Map.prototype.get`. -/
def findConn (l : List (String × ConnEntry)) (key : String) : Option ConnEntry :=
  (l.find? (fun kv => kv.1 == key)).map (fun kv => kv.2)

/-- In-place mutation of the entry stored under `key` (the JS code mutates
the object held by the map, leaving its position unchanged). -/
def updateConn (l : List (String × ConnEntry)) (key : String) (c : ConnEntry) :
    List (String × ConnEntry) :=
  l.map (fun kv => if kv.1 == key then (kv.1, c) else kv)

/-- `Map.prototype.delete`. -/
def deleteConn (l : List (String × ConnEntry)) (key : String) : List (String × ConnEntry) :=
  l.filter (fun kv => !(kv.1 == key))

/-- `Map.prototype.set`: replace in place if the key exists, else append. -/
def setConn (l : List (String × ConnEntry)) (key : String) (c : ConnEntry) :
    List (String × ConnEntry) :=
  if l.any (fun kv => kv.1 == key) then updateConn l key c else l ++ [(key, c)]

/-- `this.maxIdleTime` of both pools. -/
def maxIdleTime : Nat := 30000

/-- `this.maxPoolSize` of the `iptest.js` pool. -/
def maxPoolSize : Nat := 500

/-- Cumulative `this.stats` of the `iptest.js` pool. -/
structure PoolStats where
  hits : Nat
  misses : Nat
  created : Nat
  closed : Nat
  errors : Nat
deriving DecidableEq

/-- The `iptest.js` `ConnectionPool` state. -/
structure IptPool where
  connections : List (String × ConnEntry)
  stats : PoolStats
deriving DecidableEq

/-- `IptPool` lookup. -/
def IptPool.findKey (p : IptPool) (key : String) : Option ConnEntry :=
  findConn p.connections key

/-- The loop of `ConnectionPool.cleanup` (`src/nodejs/iptest.js` lines
1339-1364): iterate over the entries (snapshot of the map's insertion
order), deleting each entry that is idle beyond `maxIdleTime` or, when
`force` and the map is still over `maxPoolSize`, shrinking; returns the map
and the number of entries closed. -/
def iptCleanupAux (now : Nat) (force : Bool) :
    List (String × ConnEntry) → List (String × ConnEntry) → Nat →
    List (String × ConnEntry) × Nat
  | [], cur, closed => (cur, closed)
  | kv :: rest, cur, closed =>
    let isIdle := maxIdleTime < now - kv.2.lastUsed
    let needShrink := force ∧ maxPoolSize < cur.length
    if isIdle ∨ needShrink then iptCleanupAux now force rest (deleteConn cur kv.1) (closed + 1)
    else iptCleanupAux now force rest cur closed

/-- `ConnectionPool.cleanup(force)` of `iptest.js`, also adding the closed
count to `stats.closed`. -/
def iptCleanup (p : IptPool) (force : Bool) (now : Nat) : IptPool :=
  let r := iptCleanupAux now force p.connections p.connections 0
  { connections := r.1, stats := { p.stats with closed := p.stats.closed + r.2 } }

/-- `ConnectionPool.getConnection(ip, port, useTLS)` from
`src/nodejs/iptest.js` lines 1149-1207.  A cached non-destroyed connection
is a hit: its `lastUsed` is refreshed and, when TLS is wanted but missing,
it is upgraded in place — on upgrade failure the entry is deleted and a TLS
error is thrown.  Otherwise a new TCP socket is opened (`tcpOk`), optionally
upgraded (`tlsOk`), and the connection is cached only when every step
succeeded; the pool is force-cleaned when it overflows `maxPoolSize`. -/
def iptGetConnection (p : IptPool) (key : String) (useTLS tcpOk tlsOk : Bool)
    (now freshId : Nat) : Except PoolError ConnEntry × IptPool :=
  let live : Option ConnEntry :=
    match findConn p.connections key with
    | some c => if c.destroyed then none else some c
    | none => none
  match live with
  | some c =>
    let c1 := { c with lastUsed := now }
    let p1 : IptPool :=
      { connections := updateConn p.connections key c1
        stats := { p.stats with hits := p.stats.hits + 1 } }
    if useTLS ∧ ¬ c1.hasTls then
      if tlsOk then
        let c2 := { c1 with hasTls := true }
        (.ok c2, { p1 with connections := updateConn p1.connections key c2 })
      else
        (.error .tlsError,
          { connections := deleteConn p1.connections key
            stats := { p1.stats with errors := p1.stats.errors + 1 } })
    else (.ok c1, p1)
  | none =>
    let p1 : IptPool := { p with stats := { p.stats with misses := p.stats.misses + 1 } }
    if ¬ tcpOk then
      (.error .tcpError, { p1 with stats := { p1.stats with errors := p1.stats.errors + 1 } })
    else if useTLS ∧ ¬ tlsOk then
      (.error .tlsError, { p1 with stats := { p1.stats with errors := p1.stats.errors + 1 } })
    else
      let c : ConnEntry :=
        { connId := freshId, destroyed := false, hasTls := useTLS, lastUsed := now }
      let p2 : IptPool :=
        { connections := setConn p1.connections key c
          stats := { p1.stats with created := p1.stats.created + 1 } }
      let p3 := if maxPoolSize < p2.connections.length then iptCleanup p2 true now else p2
      (.ok c, p3)

/-- `ConnectionPool.release(ip, port)` from `src/nodejs/iptest.js` lines
1325-1332: refresh `lastUsed` of the cached entry; never close it. -/
def iptRelease (p : IptPool) (key : String) (now : Nat) : IptPool :=
  match findConn p.connections key with
  | some c => { p with connections := updateConn p.connections key { c with lastUsed := now } }
  | none => p

/-- The `ip_tq.js` `ConnectionPool` state (no stats). -/
structure TqPool where
  connections : List (String × ConnEntry)
deriving DecidableEq

/-- `TqPool` lookup. -/
def TqPool.findKey (p : TqPool) (key : String) : Option ConnEntry :=
  findConn p.connections key

/-- `ConnectionPool.cleanup()` of `ip_tq.js`: destroy and remove entries
idle beyond `maxIdleTime`. -/
def tqCleanup (p : TqPool) (now : Nat) : TqPool :=
  ⟨p.connections.filter (fun kv => ¬ maxIdleTime < now - kv.2.lastUsed)⟩

/-- `ConnectionPool.getConnection(ip, port, useTLS)` from `src/ip_tq.js`
lines 403-504.  On a hit needing TLS, `conn.tlsSocket = tls.connect(...)`
is assigned to the cached object *before* the handshake is awaited, and a
handshake failure rejects without deleting the entry.  On a miss, the
connection is `set` into the map only after TCP connect and (if wanted) the
TLS handshake succeed, then idle entries are cleaned. -/
def tqGetConnection (p : TqPool) (key : String) (useTLS tcpOk tlsOk : Bool)
    (now freshId : Nat) : Except PoolError ConnEntry × TqPool :=
  let live : Option ConnEntry :=
    match findConn p.connections key with
    | some c => if c.destroyed then none else some c
    | none => none
  match live with
  | some c =>
    let c1 := { c with lastUsed := now }
    if useTLS ∧ ¬ c1.hasTls then
      let c2 := { c1 with hasTls := true }
      let p1 : TqPool := ⟨updateConn p.connections key c2⟩
      if tlsOk then (.ok c2, p1) else (.error .tlsError, p1)
    else (.ok c1, ⟨updateConn p.connections key c1⟩)
  | none =>
    if ¬ tcpOk then (.error .tcpError, p)
    else if useTLS ∧ ¬ tlsOk then (.error .tlsError, p)
    else
      let c : ConnEntry :=
        { connId := freshId, destroyed := false, hasTls := useTLS, lastUsed := now }
      (.ok c, tqCleanup ⟨setConn p.connections key c⟩ now)

/-! ## iptest.js / ip_tq.js: HTTP chunked-transfer decoding

`sendHttpRequest` (`src/nodejs/iptest.js` lines 1474-1493, `src/ip_tq.js`
lines 597-624) decodes a chunked body from `bodyBuffer.toString()` — a
UTF-8 decode of the raw bytes into a JS string — and then walks the string
with `indexOf("\r\n", pos)`, `parseInt(sizeLine, 16)` and
`slice(chunkStart, chunkEnd)`, where positions count UTF-16 code units.
Bytes, code points and code units are all modelled as `Nat`. -/

/-- Carriage return. -/
def CRu : Nat := 13

/-- Line feed. -/
def LFu : Nat := 10

/-- UTF-8 decoding of a byte list to code points, one U+FFFD per invalid
byte (Node `Buffer.prototype.toString('utf8')`), with fuel (each step
consumes at least one byte, so the byte count is enough fuel). -/
def utf8DecodeAux : Nat → List Nat → List Nat
  | 0, _ => []
  | _ + 1, [] => []
  | fuel + 1, b :: rest =>
    if b < 128 then b :: utf8DecodeAux fuel rest
    else if 194 ≤ b ∧ b ≤ 223 then
      match rest with
      | b2 :: rest2 =>
        if 128 ≤ b2 ∧ b2 ≤ 191 then ((b - 192) * 64 + (b2 - 128)) :: utf8DecodeAux fuel rest2
        else 65533 :: utf8DecodeAux fuel rest
      | [] => [65533]
    else if 224 ≤ b ∧ b ≤ 239 then
      match rest with
      | b2 :: b3 :: rest3 =>
        if (if b = 224 then 160 ≤ b2 ∧ b2 ≤ 191
            else if b = 237 then 128 ≤ b2 ∧ b2 ≤ 159
            else 128 ≤ b2 ∧ b2 ≤ 191) ∧ (128 ≤ b3 ∧ b3 ≤ 191) then
          ((b - 224) * 4096 + (b2 - 128) * 64 + (b3 - 128)) :: utf8DecodeAux fuel rest3
        else 65533 :: utf8DecodeAux fuel rest
      | _ => 65533 :: utf8DecodeAux fuel rest
    else if 240 ≤ b ∧ b ≤ 244 then
      match rest with
      | b2 :: b3 :: b4 :: rest4 =>
        if (if b = 240 then 144 ≤ b2 ∧ b2 ≤ 191
            else if b = 244 then 128 ≤ b2 ∧ b2 ≤ 143
            else 128 ≤ b2 ∧ b2 ≤ 191) ∧ (128 ≤ b3 ∧ b3 ≤ 191) ∧ (128 ≤ b4 ∧ b4 ≤ 191) then
          ((b - 240) * 262144 + (b2 - 128) * 4096 + (b3 - 128) * 64 + (b4 - 128))
            :: utf8DecodeAux fuel rest4
        else 65533 :: utf8DecodeAux fuel rest
      | _ => 65533 :: utf8DecodeAux fuel rest
    else 65533 :: utf8DecodeAux fuel rest

/-- UTF-8 decoding of a byte list to code points. -/
def utf8Decode (bytes : List Nat) : List Nat := utf8DecodeAux bytes.length bytes

/-- A code point as UTF-16 code units (surrogate pair above U+FFFF). -/
def cpToUnits (cp : Nat) : List Nat :=
  if cp < 65536 then [cp]
  else [55296 + (cp - 65536) / 1024, 56320 + (cp - 65536) % 1024]

/-- `Buffer.prototype.toString('utf8')` as a list of UTF-16 code units. -/
def bufToUnits (bytes : List Nat) : List Nat :=
  ((utf8Decode bytes).map cpToUnits).flatten

/-- UTF-16 code units back to code points (lone surrogates become U+FFFD),
with fuel (each step consumes at least one unit). -/
def unitsToCodepointsAux : Nat → List Nat → List Nat
  | 0, _ => []
  | _ + 1, [] => []
  | fuel + 1, u :: rest =>
    if 55296 ≤ u ∧ u < 56320 then
      match rest with
      | u2 :: rest2 =>
        if 56320 ≤ u2 ∧ u2 < 57344 then
          (65536 + (u - 55296) * 1024 + (u2 - 56320)) :: unitsToCodepointsAux fuel rest2
        else 65533 :: unitsToCodepointsAux fuel rest
      | [] => [65533]
    else if 56320 ≤ u ∧ u < 57344 then 65533 :: unitsToCodepointsAux fuel rest
    else u :: unitsToCodepointsAux fuel rest

/-- UTF-16 code units back to code points. -/
def unitsToCodepoints (units : List Nat) : List Nat :=
  unitsToCodepointsAux units.length units

/-- UTF-8 encoding of one code point. -/
def cpToUtf8 (cp : Nat) : List Nat :=
  if cp < 128 then [cp]
  else if cp < 2048 then [192 + cp / 64, 128 + cp % 64]
  else if cp < 65536 then [224 + cp / 4096, 128 + (cp / 64) % 64, 128 + cp % 64]
  else [240 + cp / 262144, 128 + (cp / 4096) % 64, 128 + (cp / 64) % 64, 128 + cp % 64]

/-- `Buffer.from(string, 'utf8')`: the bytes denoted by a JS string. -/
def unitsToBytes (units : List Nat) : List Nat :=
  ((unitsToCodepoints units).map cpToUtf8).flatten

/-- `String.prototype.slice(a, b)` for `0 ≤ a ≤ b` (clamped at the end). -/
def sliceUnits (s : List Nat) (a b : Nat) : List Nat := (s.take b).drop a

/-- Index of the first `"\r\n"` in a list. -/
def findCRLFAux : List Nat → Option Nat
  | [] => none
  | [_] => none
  | a :: b :: rest =>
    if a = CRu ∧ b = LFu then some 0 else (findCRLFAux (b :: rest)).map (fun n => n + 1)

/-- `String.prototype.indexOf("\r\n", pos)`. -/
def indexOfCRLF (s : List Nat) (pos : Nat) : Option Nat :=
  (findCRLFAux (s.drop pos)).map (fun n => n + pos)

/-- Is a code unit an ASCII hex digit? -/
def isHexDigitCode (u : Nat) : Bool :=
  (48 ≤ u ∧ u ≤ 57) ∨ (97 ≤ u ∧ u ≤ 102) ∨ (65 ≤ u ∧ u ≤ 70)

/-- Value of an ASCII hex digit code. -/
def hexCodeVal (u : Nat) : Nat :=
  if u ≤ 57 then u - 48 else if u ≤ 70 then u - 55 else u - 87

/-- JS `parseInt` whitespace. -/
def jsWhitespace (u : Nat) : Bool := u = 9 ∨ u = 10 ∨ u = 11 ∨ u = 12 ∨ u = 13 ∨ u = 32

/-- Drop a leading `0x` / `0X` (accepted by `parseInt` with radix 16). -/
def strip0x (s : List Nat) : List Nat :=
  match s with
  | a :: b :: rest => if a = 48 ∧ (b = 120 ∨ b = 88) then rest else a :: b :: rest
  | _ => s

/-- `parseInt(s, 16)`: trim whitespace, drop an optional `0x`/`0X` prefix,
read the maximal run of hex digits; no digits means `NaN` (`none`). -/
def jsParseIntHex (s : List Nat) : Option Nat :=
  let ds := (strip0x (s.dropWhile jsWhitespace)).takeWhile isHexDigitCode
  if ds.isEmpty then none
  else some (ds.foldl (fun acc u => acc * 16 + hexCodeVal u) 0)

/-- The chunked-decoding `while (pos < body.length)` loop of
`sendHttpRequest` with explicit fuel (each iteration advances `pos` by at
least 4 code units, so `body.length + 1` iterations always suffice):
find the `"\r\n"` ending the size line, `parseInt` it as hex, stop on a
zero size, otherwise push `body.slice(chunkStart, chunkStart + size)` and
continue after the chunk's trailing `"\r\n"`.  When `parseInt` yields `NaN`
the code pushes `body.slice(lineEnd + 2, NaN)` — the empty string — and the
next loop test `NaN < body.length` is false, ending the loop. -/
def decodeChunkedAux (body : List Nat) : Nat → Nat → List Nat → List Nat
  | 0, _, acc => acc
  | fuel + 1, pos, acc =>
    if pos < body.length then
      match indexOfCRLF body pos with
      | none => acc
      | some lineEnd =>
        match jsParseIntHex (sliceUnits body pos lineEnd) with
        | none => acc
        | some 0 => acc
        | some (size + 1) =>
          let chunkStart := lineEnd + 2
          let chunkEnd := chunkStart + (size + 1)
          decodeChunkedAux body fuel (chunkEnd + 2) (acc ++ sliceUnits body chunkStart chunkEnd)
    else acc

/-- The chunked decoder of `sendHttpRequest` run on a full body string
(list of UTF-16 code units), returning `chunks.join("")`. -/
def decodeChunked (body : List Nat) : List Nat :=
  decodeChunkedAux body (body.length + 1) 0 []

/-- Lowercase hex digit of a value `< 16` (as `Number.prototype.toString(16)`). -/
def hexDigitCode (d : Nat) : Nat := if d < 10 then 48 + d else 87 + d

/-- Hex digits (most significant first) of `n`, with fuel. -/
def natHexAux : Nat → Nat → List Nat
  | 0, _ => []
  | fuel + 1, n =>
    if n < 16 then [hexDigitCode n] else natHexAux fuel (n / 16) ++ [hexDigitCode (n % 16)]

/-- The hex representation of a chunk size, as ASCII codes. -/
def natHexUnits (n : Nat) : List Nat := natHexAux (n + 1) n

/-- One HTTP chunked-transfer frame, per the spec's framing description:
the chunk's byte length in hex, CRLF, the payload bytes, CRLF. -/
def encodeChunk (c : List Nat) : List Nat :=
  natHexUnits c.length ++ [CRu, LFu] ++ c ++ [CRu, LFu]

/-- A chunked-transfer body, per the spec's framing description: the data
chunks in order, then the zero-length terminal chunk `0\r\n\r\n` (48 is the
ASCII `0`).  No extensions or trailers. -/
def encodeChunked (chunks : List (List Nat)) : List Nat :=
  (chunks.map encodeChunk).flatten ++ [48, CRu, LFu, CRu, LFu]

/-! ## iptest.js / part_000: grouped, capped proxy outputs -/

/-- A validated proxy object as consumed by `addSequentialNumbers`
(`src/nodejs/iptest.js` lines 1583-1609, `src/unnamed/part_000` lines
902-928). -/
structure ProxyObj where
  ipPort : String
  emoji : String
  country : String
deriving DecidableEq

/-- `groupByCountry` (`src/nodejs/iptest.js` lines 1567-1575) read at one
key: the proxies pushed under `country`, in input order. -/
def groupByCountry (ps : List ProxyObj) (c : String) : List ProxyObj :=
  ps.filter (fun p => p.country == c)

/-- First-occurrence deduplication: JS object key insertion order. -/
def firstDedup : List String → List String
  | [] => []
  | a :: rest => a :: (firstDedup rest).filter (fun b => !(b == a))

/-- `Object.keys(groups).sort()` of `addSequentialNumbers`: the group keys
in lexicographically sorted order (stable sort of the distinct keys). -/
def sortedCountryKeys (ps : List ProxyObj) : List String :=
  ((firstDedup (ps.map (fun p => p.country))).insertionSort (· ≤ ·))

/-- The entries `` `${proxy.ipPort}#${proxy.emoji}${proxy.country}${index + 1}` ``
pushed for one group. -/
def numberedEntries (g : List ProxyObj) : List String :=
  g.enum.map (fun ip => ip.2.ipPort ++ "#" ++ ip.2.emoji ++ ip.2.country ++ toString (ip.1 + 1))

/-- Output of `addSequentialNumbers(validProxyObjects, limitPerCountry)`:
`{ all, limited }`. -/
structure NumberedProxies where
  all : List String
  limited : List String
deriving DecidableEq

/-- `addSequentialNumbers` from `src/nodejs/iptest.js` lines 1583-1609 and
`src/unnamed/part_000` lines 902-928: for each sorted group key, **only if
the group has at least `limitPerCountry` members**, push all its numbered
members onto `all` and the first `limitPerCountry` onto `limited`. -/
def addSequentialNumbers (ps : List ProxyObj) (limitPerCountry : Nat) : NumberedProxies :=
  { all :=
      (sortedCountryKeys ps).flatMap (fun c =>
        let g := groupByCountry ps c
        if limitPerCountry ≤ g.length then numberedEntries g else [])
    limited :=
      (sortedCountryKeys ps).flatMap (fun c =>
        let g := groupByCountry ps c
        if limitPerCountry ≤ g.length then numberedEntries (g.take limitPerCountry) else []) }

/-! ## Concrete sample inputs

Used to instantiate the universally quantified theorems below at concrete
values. -/

/-- A completed endpoint result with one failed attempt among its four. -/
def wResult : TestResult :=
  { location := "DE1", ip := "1.2.3.4", port := 443, successes := 3, failures := 1
    latencies := [100, 120, 90], completed := true }

/-- A pooled, released, non-destroyed TLS connection. -/
def wConn : ConnEntry := { connId := 7, destroyed := false, hasTls := true, lastUsed := 1000 }

/-- A pooled, non-destroyed TCP-only connection. -/
def wConnRaw : ConnEntry := { connId := 8, destroyed := false, hasTls := false, lastUsed := 1000 }

/-- An `iptest.js` pool holding `wConn` under one endpoint key. -/
def wPoolTls : IptPool := { connections := [("1.2.3.4:443", wConn)], stats := ⟨0, 0, 0, 0, 0⟩ }

/-- An `iptest.js` pool holding `wConnRaw` under one endpoint key. -/
def wPoolRaw : IptPool := { connections := [("5.6.7.8:443", wConnRaw)], stats := ⟨0, 0, 0, 0, 0⟩ }

/-- An `ip_tq.js` pool holding `wConnRaw` under one endpoint key. -/
def wTqPool : TqPool := ⟨[("5.6.7.8:443", wConnRaw)]⟩

/-- A Japanese proxy record. -/
def wProxyJP : ProxyObj := ⟨"1.1.1.1:443", "", "JP"⟩

/-- A US proxy record. -/
def wProxyUS : ProxyObj := ⟨"2.2.2.2:8443", "", "US"⟩

/-! ## Theorems -/

/-! ### Association-list helper lemmas -/

theorem findConn_update_self (l : List (String × ConnEntry)) (key : String) (c c1 : ConnEntry)
    (h : findConn l key = some c) : findConn (updateConn l key c1) key = some c1 := by
  unfold findConn updateConn
  rw [List.find?_map]
  have hpf : ((fun kv : String × ConnEntry => kv.1 == key)
        ∘ fun kv : String × ConnEntry => if kv.1 == key then (kv.1, c1) else kv)
      = fun kv : String × ConnEntry => kv.1 == key := by
    funext kv
    simp only [Function.comp_apply]
    by_cases hk : (kv.1 == key) = true
    · rw [if_pos hk]
    · rw [if_neg hk]
  rw [hpf]
  unfold findConn at h
  obtain ⟨kv, hfind⟩ : ∃ kv, l.find? (fun kv => kv.1 == key) = some kv := by
    cases hf : l.find? (fun kv => kv.1 == key) with
    | none => rw [hf] at h; simp at h
    | some kv => exact ⟨kv, rfl⟩
  have hp := List.find?_some hfind
  have hq : kv.1 = key := by simpa using hp
  rw [hfind]
  simp [hp, hq]

theorem findConn_delete_self (l : List (String × ConnEntry)) (key : String) :
    findConn (deleteConn l key) key = none := by
  unfold findConn deleteConn
  have : (l.filter (fun kv => !(kv.1 == key))).find? (fun kv => kv.1 == key) = none := by
    rw [List.find?_eq_none]
    intro kv hkv
    have hmem := List.of_mem_filter hkv
    simpa using hmem
  rw [this]
  rfl

theorem updateConn_length (l : List (String × ConnEntry)) (key : String) (c : ConnEntry) :
    (updateConn l key c).length = l.length := by
  simp [updateConn]

/-! ### Grouping lemmas for the vless.js `countryGroups` object -/

theorem groupLookup_insertGroup (acc : List (String × List PassedIP)) (c c1 : String)
    (x : PassedIP) :
    groupLookup (insertGroup acc c x) c1 =
      if c1 = c then groupLookup acc c1 ++ [x] else groupLookup acc c1 := by
  unfold insertGroup
  by_cases hany : (acc.any (fun p => p.1 == c)) = true
  · rw [if_pos hany]
    unfold groupLookup
    rw [List.find?_map]
    have hpf : ((fun p : String × List PassedIP => p.1 == c1)
          ∘ fun p : String × List PassedIP => if p.1 == c then (p.1, p.2 ++ [x]) else p)
        = fun p : String × List PassedIP => p.1 == c1 := by
      funext p
      simp only [Function.comp_apply]
      by_cases hk : (p.1 == c) = true
      · rw [if_pos hk]
      · rw [if_neg hk]
    rw [hpf]
    by_cases hc : c1 = c
    · subst hc
      obtain ⟨kv, hfind⟩ : ∃ kv, acc.find? (fun p => p.1 == c1) = some kv := by
        rw [List.any_eq_true] at hany
        obtain ⟨kv, hkv, hp⟩ := hany
        cases hf : acc.find? (fun p => p.1 == c1) with
        | none =>
          rw [List.find?_eq_none] at hf
          exact absurd hp (hf kv hkv)
        | some kv1 => exact ⟨kv1, rfl⟩
      have hp := List.find?_some hfind
      have hq : kv.1 = c1 := by simpa using hp
      rw [hfind]
      simp [hp, hq]
    · rw [if_neg hc]
      cases hf : acc.find? (fun p => p.1 == c1) with
      | none => simp
      | some kv =>
        have hp := List.find?_some hf
        have hq : kv.1 = c1 := by simpa using hp
        have hkc : (kv.1 == c) = false := by
          rw [hq]
          exact beq_false_of_ne hc
        have hqc : ¬ kv.1 = c := by
          rw [hq]
          exact hc
        simp [hkc, hqc]
  · rw [if_neg hany]
    unfold groupLookup
    rw [List.find?_append]
    have hnone : acc.find? (fun p => p.1 == c) = none := by
      rw [List.find?_eq_none]
      intro kv hkv hp
      exact hany (List.any_eq_true.mpr ⟨kv, hkv, hp⟩)
    by_cases hc : c1 = c
    · subst hc
      simp [hnone]
    · have hne : ((c, [x]).1 == c1) = false := beq_false_of_ne (Ne.symm hc)
      rw [if_neg hc]
      cases hf : acc.find? (fun p => p.1 == c1) with
      | none => simp [hne]
      | some kv => simp [hne, hf]

theorem groupLookup_foldl (items : List PassedIP) (acc : List (String × List PassedIP))
    (c : String) :
    groupLookup (items.foldl (fun a x => insertGroup a (countryBase x.res.location) x) acc) c
      = groupLookup acc c ++ items.filter (fun x => countryBase x.res.location == c) := by
  induction items generalizing acc with
  | nil => simp
  | cons x t ih =>
    rw [List.foldl_cons, ih, groupLookup_insertGroup, List.filter_cons]
    by_cases hc : (countryBase x.res.location == c) = true
    · have hq : c = countryBase x.res.location := (eq_of_beq hc).symm
      rw [if_pos hq, if_pos hc]
      simp
    · have hq : ¬ c = countryBase x.res.location := fun h => hc (beq_iff_eq.mpr h.symm)
      rw [if_neg hq, if_neg (by simpa using hc)]

/-- The `countryGroups` object of `saveResults` read at one key is exactly
the sublist of items whose normalized location is that key, in order. -/
theorem groupLookup_countryGroups (items : List PassedIP) (c : String) :
    groupLookup (countryGroups items) c
      = items.filter (fun x => countryBase x.res.location == c) := by
  have h := groupLookup_foldl items [] c
  simpa [countryGroups, groupLookup] using h

/-! ### C5 / C6: pool behaviour -/

/-- **C5.** `acquire()` right after `release()`: for a pooled, released,
non-destroyed (TLS-carrying) connection, `iptGetConnection` is a pool hit
returning the very connection already stored (same socket identity, only
its `lastUsed` refreshed), which stays the single cached entry; nothing is
created (`created` and `misses` stats and the pool size are unchanged). -/
theorem release_acquire_returns_identical (p : IptPool) (key : String) (c : ConnEntry)
    (tcpOk tlsOk : Bool) (now1 now2 freshId : Nat)
    (hfind : p.findKey key = some c) (hdest : c.destroyed = false) (htls : c.hasTls = true) :
    (iptGetConnection (iptRelease p key now1) key true tcpOk tlsOk now2 freshId).1
      = .ok { c with lastUsed := now2 } ∧
    (iptGetConnection (iptRelease p key now1) key true tcpOk tlsOk now2 freshId).2.findKey key
      = some { c with lastUsed := now2 } ∧
    (iptGetConnection (iptRelease p key now1) key true tcpOk tlsOk now2 freshId).2.stats.created
      = p.stats.created ∧
    (iptGetConnection (iptRelease p key now1) key true tcpOk tlsOk now2 freshId).2.stats.misses
      = p.stats.misses ∧
    (iptGetConnection (iptRelease p key now1) key true tcpOk tlsOk now2 freshId).2.stats.hits
      = p.stats.hits + 1 ∧
    (iptGetConnection (iptRelease p key now1) key true tcpOk tlsOk now2 freshId).2.connections.length
      = p.connections.length := by
  unfold IptPool.findKey at hfind
  have hrel : iptRelease p key now1
      = { p with connections := updateConn p.connections key { c with lastUsed := now1 } } := by
    simp [iptRelease, hfind]
  have h2 : findConn (updateConn p.connections key { c with lastUsed := now1 }) key
      = some { c with lastUsed := now1 } := findConn_update_self _ _ _ _ hfind
  have h3 : findConn
      (updateConn (updateConn p.connections key { c with lastUsed := now1 }) key
        { c with lastUsed := now2 }) key = some { c with lastUsed := now2 } :=
    findConn_update_self _ _ _ _ h2
  rw [hdest, htls] at h2 h3
  rw [hrel]
  simp [iptGetConnection, h2, hdest, htls, IptPool.findKey, h3, updateConn_length]

/-- Instantiation of `release_acquire_returns_identical` at the concrete
one-entry pool `wPoolTls` holding the released connection `wConn`. -/
theorem release_acquire_returns_identical_witness :
    (wPoolTls.findKey "1.2.3.4:443" = some wConn ∧ wConn.destroyed = false ∧
      wConn.hasTls = true) ∧
    ((iptGetConnection (iptRelease wPoolTls "1.2.3.4:443" 1500) "1.2.3.4:443" true true true
        2000 99).1 = .ok { wConn with lastUsed := 2000 } ∧
     (iptGetConnection (iptRelease wPoolTls "1.2.3.4:443" 1500) "1.2.3.4:443" true true true
        2000 99).2.findKey "1.2.3.4:443" = some { wConn with lastUsed := 2000 } ∧
     (iptGetConnection (iptRelease wPoolTls "1.2.3.4:443" 1500) "1.2.3.4:443" true true true
        2000 99).2.stats.created = wPoolTls.stats.created ∧
     (iptGetConnection (iptRelease wPoolTls "1.2.3.4:443" 1500) "1.2.3.4:443" true true true
        2000 99).2.stats.misses = wPoolTls.stats.misses ∧
     (iptGetConnection (iptRelease wPoolTls "1.2.3.4:443" 1500) "1.2.3.4:443" true true true
        2000 99).2.stats.hits = wPoolTls.stats.hits + 1 ∧
     (iptGetConnection (iptRelease wPoolTls "1.2.3.4:443" 1500) "1.2.3.4:443" true true true
        2000 99).2.connections.length = wPoolTls.connections.length) :=
  ⟨⟨by decide, by decide, by decide⟩,
   release_acquire_returns_identical wPoolTls "1.2.3.4:443" wConn true true 1500 2000 99
     (by decide) (by decide) (by decide)⟩

/-! ### Hex, CRLF and slice lemmas for the chunked codec (C4) -/

theorem hexDigitCode_isHex (d : Nat) (h : d < 16) : isHexDigitCode (hexDigitCode d) = true := by
  unfold isHexDigitCode hexDigitCode
  split_ifs <;> simp <;> omega

theorem hexCodeVal_hexDigitCode (d : Nat) (h : d < 16) : hexCodeVal (hexDigitCode d) = d := by
  unfold hexCodeVal hexDigitCode
  split_ifs <;> omega

theorem isHex_facts (u : Nat) (h : isHexDigitCode u = true) :
    jsWhitespace u = false ∧ u ≠ CRu ∧ u < 128 ∧ u ≠ 120 ∧ u ≠ 88 := by
  simp only [isHexDigitCode, decide_eq_true_eq] at h
  refine ⟨?_, ?_, ?_, ?_, ?_⟩
  · simp only [jsWhitespace, decide_eq_false_iff_not]
    omega
  · unfold CRu
    omega
  · omega
  · omega
  · omega

theorem natHexAux_spec : ∀ fuel n, n < fuel →
    natHexAux fuel n ≠ [] ∧ (∀ u ∈ natHexAux fuel n, isHexDigitCode u = true) ∧
      (natHexAux fuel n).foldl (fun acc u => acc * 16 + hexCodeVal u) 0 = n := by
  intro fuel
  induction fuel with
  | zero => intro n h; omega
  | succ f ih =>
    intro n h
    by_cases h16 : n < 16
    · rw [natHexAux, if_pos h16]
      refine ⟨by simp, ?_, ?_⟩
      · intro u hu
        rw [List.mem_singleton] at hu
        subst hu
        exact hexDigitCode_isHex n h16
      · simp [hexCodeVal_hexDigitCode n h16]
    · rw [natHexAux, if_neg h16]
      have hlt : n / 16 < n := Nat.div_lt_self (by omega) (by omega)
      obtain ⟨hne, hhex, hval⟩ := ih (n / 16) (by omega)
      refine ⟨by simp, ?_, ?_⟩
      · intro u hu
        rw [List.mem_append] at hu
        rcases hu with hu | hu
        · exact hhex u hu
        · rw [List.mem_singleton] at hu
          subst hu
          exact hexDigitCode_isHex _ (Nat.mod_lt _ (by omega))
      · rw [List.foldl_append, hval]
        simp only [List.foldl_cons, List.foldl_nil]
        rw [hexCodeVal_hexDigitCode _ (Nat.mod_lt n (by omega))]
        omega

theorem natHexUnits_spec (n : Nat) :
    natHexUnits n ≠ [] ∧ (∀ u ∈ natHexUnits n, isHexDigitCode u = true) ∧
      (natHexUnits n).foldl (fun acc u => acc * 16 + hexCodeVal u) 0 = n :=
  natHexAux_spec (n + 1) n (Nat.lt_succ_self n)

theorem takeWhile_all (p : Nat → Bool) (l : List Nat) (h : ∀ u ∈ l, p u = true) :
    l.takeWhile p = l := by
  induction l with
  | nil => rfl
  | cons a t ih =>
    rw [List.takeWhile_cons, if_pos (h a (by simp)), ih fun u hu => h u (by simp [hu])]

theorem jsParseIntHex_digits (ds : List Nat) (hne : ds ≠ [])
    (hd : ∀ u ∈ ds, isHexDigitCode u = true) :
    jsParseIntHex ds = some (ds.foldl (fun acc u => acc * 16 + hexCodeVal u) 0) := by
  obtain ⟨d, tl, rfl⟩ := List.exists_cons_of_ne_nil hne
  have hd0 := hd d (by simp)
  obtain ⟨hws, -, -, hx120, hx88⟩ := isHex_facts d hd0
  have hdrop : (d :: tl).dropWhile jsWhitespace = d :: tl := by
    rw [List.dropWhile_cons, if_neg (by simp [hws])]
  have hstrip : strip0x (d :: tl) = d :: tl := by
    cases tl with
    | nil => rfl
    | cons e tl2 =>
      obtain ⟨-, -, -, he120, he88⟩ := isHex_facts e (hd e (by simp))
      show (if d = 48 ∧ (e = 120 ∨ e = 88) then tl2 else d :: e :: tl2) = d :: e :: tl2
      rw [if_neg]
      rintro ⟨-, he | he⟩
      · exact he120 he
      · exact he88 he
  have htake : (d :: tl).takeWhile isHexDigitCode = d :: tl := takeWhile_all _ _ hd
  unfold jsParseIntHex
  rw [hdrop, hstrip, htake, if_neg (by simp)]

theorem findCRLFAux_append (h : List Nat) (r : List Nat) (hcr : ∀ u ∈ h, u ≠ CRu) :
    findCRLFAux (h ++ CRu :: LFu :: r) = some h.length := by
  induction h with
  | nil =>
    rw [List.nil_append, findCRLFAux, if_pos ⟨rfl, rfl⟩]
    rfl
  | cons a t ih =>
    have ha : a ≠ CRu := hcr a (by simp)
    have ihx := ih fun u hu => hcr u (by simp [hu])
    cases t with
    | nil =>
      rw [List.cons_append, List.nil_append, findCRLFAux, if_neg (by simp [ha])]
      rw [List.nil_append] at ihx
      rw [ihx]
      rfl
    | cons b t2 =>
      rw [List.cons_append, List.cons_append, findCRLFAux, if_neg (by simp [ha])]
      rw [List.cons_append] at ihx
      rw [ihx]
      simp

theorem indexOfCRLF_append (pre h r : List Nat) (hcr : ∀ u ∈ h, u ≠ CRu) :
    indexOfCRLF (pre ++ (h ++ CRu :: LFu :: r)) pre.length = some (pre.length + h.length) := by
  unfold indexOfCRLF
  rw [List.drop_left, findCRLFAux_append h r hcr]
  simp [Nat.add_comm]

theorem sliceUnits_append (pre x : List Nat) (k : Nat) :
    sliceUnits (pre ++ x) pre.length (pre.length + k) = x.take k := by
  induction pre with
  | nil => simp [sliceUnits]
  | cons a t ih =>
    simp only [sliceUnits] at ih ⊢
    rw [List.cons_append, List.length_cons,
      show t.length + 1 + k = (t.length + k) + 1 from by omega,
      List.take_succ_cons, List.drop_succ_cons]
    exact ih

theorem decodeChunkedAux_encode :
    ∀ (chunks : List (List Nat)) (pre acc : List Nat) (fuel : Nat),
      (∀ ch ∈ chunks, ch ≠ []) → chunks.length < fuel →
      decodeChunkedAux (pre ++ ((chunks.map encodeChunk).flatten ++ [48, CRu, LFu, CRu, LFu]))
          fuel pre.length acc
        = acc ++ chunks.flatten := by
  intro chunks
  induction chunks with
  | nil =>
    intro pre acc fuel hne hf
    obtain ⟨f, rfl⟩ : ∃ f, fuel = f + 1 := ⟨fuel - 1, by omega⟩
    simp only [List.map_nil, List.flatten_nil, List.nil_append]
    rw [decodeChunkedAux]
    rw [if_pos (by simp)]
    have hidx : indexOfCRLF (pre ++ [48, CRu, LFu, CRu, LFu]) pre.length
        = some (pre.length + 1) := by
      have h48 : ∀ u ∈ [48], u ≠ CRu := by decide
      simpa using indexOfCRLF_append pre [48] [CRu, LFu] h48
    rw [hidx]
    dsimp only
    have hslice : sliceUnits (pre ++ [48, CRu, LFu, CRu, LFu]) pre.length (pre.length + 1)
        = [48] := by
      simpa using sliceUnits_append pre [48, CRu, LFu, CRu, LFu] 1
    rw [hslice]
    rw [show jsParseIntHex [48] = some 0 from by decide]
    simp
  | cons ch rest ih =>
    intro pre acc fuel hne hf
    obtain ⟨f, rfl⟩ : ∃ f, fuel = f + 1 := ⟨fuel - 1, by omega⟩
    have hchne : ch ≠ [] := hne ch (by simp)
    obtain ⟨m, hm⟩ : ∃ m, ch.length = m + 1 := by
      cases hc : ch with
      | nil => exact absurd hc hchne
      | cons a t => exact ⟨t.length, by simp⟩
    obtain ⟨hxne, hxhex, hxval⟩ := natHexUnits_spec ch.length
    have hbody : pre ++ (((ch :: rest).map encodeChunk).flatten ++ [48, CRu, LFu, CRu, LFu])
        = pre ++ (natHexUnits ch.length ++ CRu :: LFu ::
            (ch ++ CRu :: LFu :: ((rest.map encodeChunk).flatten ++ [48, CRu, LFu, CRu, LFu]))) := by
      simp [encodeChunk]
    rw [hbody]
    rw [decodeChunkedAux]
    have hxpos : 0 < (natHexUnits ch.length).length := List.length_pos.mpr hxne
    rw [if_pos (by simp)]
    rw [indexOfCRLF_append pre (natHexUnits ch.length) _
      fun u hu => (isHex_facts u (hxhex u hu)).2.1]
    dsimp only
    have hslice1 : sliceUnits
        (pre ++ (natHexUnits ch.length ++ CRu :: LFu ::
          (ch ++ CRu :: LFu :: ((rest.map encodeChunk).flatten ++ [48, CRu, LFu, CRu, LFu]))))
        pre.length (pre.length + (natHexUnits ch.length).length) = natHexUnits ch.length := by
      rw [sliceUnits_append]
      exact List.take_left _ _
    rw [hslice1]
    have hparse : jsParseIntHex (natHexUnits ch.length) = some (m + 1) := by
      rw [jsParseIntHex_digits _ hxne hxhex, hxval, hm]
    rw [hparse]
    dsimp only
    have hbody2 : pre ++ (natHexUnits ch.length ++ CRu :: LFu ::
          (ch ++ CRu :: LFu :: ((rest.map encodeChunk).flatten ++ [48, CRu, LFu, CRu, LFu])))
        = (pre ++ natHexUnits ch.length ++ [CRu, LFu])
            ++ (ch ++ CRu :: LFu :: ((rest.map encodeChunk).flatten ++ [48, CRu, LFu, CRu, LFu])) := by
      simp
    have hplen : (pre ++ natHexUnits ch.length ++ [CRu, LFu]).length
        = pre.length + (natHexUnits ch.length).length + 2 := by
      simp only [List.length_append, List.length_cons, List.length_nil]
    have hslice2 : sliceUnits
        (pre ++ (natHexUnits ch.length ++ CRu :: LFu ::
          (ch ++ CRu :: LFu :: ((rest.map encodeChunk).flatten ++ [48, CRu, LFu, CRu, LFu]))))
        (pre.length + (natHexUnits ch.length).length + 2)
        (pre.length + (natHexUnits ch.length).length + 2 + (m + 1)) = ch := by
      rw [hbody2, ← hplen, sliceUnits_append, ← hm]
      exact List.take_left _ _
    rw [hslice2]
    have hbody3 : pre ++ (natHexUnits ch.length ++ CRu :: LFu ::
          (ch ++ CRu :: LFu :: ((rest.map encodeChunk).flatten ++ [48, CRu, LFu, CRu, LFu])))
        = (pre ++ encodeChunk ch)
            ++ ((rest.map encodeChunk).flatten ++ [48, CRu, LFu, CRu, LFu]) := by
      simp [encodeChunk]
    have hpos3 : pre.length + (natHexUnits ch.length).length + 2 + (m + 1) + 2
        = (pre ++ encodeChunk ch).length := by
      simp [encodeChunk]
      omega
    rw [hbody3, hpos3]
    rw [ih (pre ++ encodeChunk ch) (acc ++ ch) f (fun c hc => hne c (by simp [hc])) (by simp at hf; omega)]
    simp

/-! ### UTF-8 / ASCII lemmas (C4) -/

theorem utf8DecodeAux_ascii : ∀ (fuel : Nat) (l : List Nat), l.length ≤ fuel →
    (∀ b ∈ l, b < 128) → utf8DecodeAux fuel l = l := by
  intro fuel
  induction fuel with
  | zero =>
    intro l hl _
    cases l with
    | nil => rfl
    | cons b t => simp at hl
  | succ f ih =>
    intro l hl hb
    cases l with
    | nil => rfl
    | cons b t =>
      have hb0 : b < 128 := hb b (by simp)
      rw [utf8DecodeAux.eq_def]
      dsimp only
      rw [if_pos hb0]
      rw [ih t (by simp at hl; omega) fun u hu => hb u (by simp [hu])]

theorem flatten_map_cpToUnits_ascii (l : List Nat) (h : ∀ b ∈ l, b < 128) :
    (l.map cpToUnits).flatten = l := by
  induction l with
  | nil => rfl
  | cons b t ih =>
    rw [List.map_cons, List.flatten_cons,
      show cpToUnits b = [b] from by unfold cpToUnits; rw [if_pos (by have := h b (by simp); omega)],
      ih fun u hu => h u (by simp [hu])]
    rfl

theorem bufToUnits_ascii (l : List Nat) (h : ∀ b ∈ l, b < 128) : bufToUnits l = l := by
  unfold bufToUnits utf8Decode
  rw [utf8DecodeAux_ascii l.length l le_rfl h, flatten_map_cpToUnits_ascii l h]

theorem encodeChunk_ascii (ch : List Nat) (h : ∀ b ∈ ch, b < 128) :
    ∀ b ∈ encodeChunk ch, b < 128 := by
  intro b hb
  unfold encodeChunk at hb
  rw [List.mem_append, List.mem_append, List.mem_append] at hb
  rcases hb with ((hb | hb) | hb) | hb
  · exact (isHex_facts b ((natHexUnits_spec ch.length).2.1 b hb)).2.2.1
  · have hv : b = 13 ∨ b = 10 := by simpa [CRu, LFu] using hb
    omega
  · exact h b hb
  · have hv : b = 13 ∨ b = 10 := by simpa [CRu, LFu] using hb
    omega

theorem encodeChunked_ascii (chunks : List (List Nat))
    (h : ∀ ch ∈ chunks, ∀ b ∈ ch, b < 128) :
    ∀ b ∈ encodeChunked chunks, b < 128 := by
  intro b hb
  unfold encodeChunked at hb
  rw [List.mem_append] at hb
  rcases hb with hb | hb
  · rw [List.mem_flatten] at hb
    obtain ⟨l, hl, hbl⟩ := hb
    rw [List.mem_map] at hl
    obtain ⟨ch, hch, rfl⟩ := hl
    exact encodeChunk_ascii ch (h ch hch) b hbl
  · have hv : b = 48 ∨ b = 13 ∨ b = 10 ∨ b = 13 ∨ b = 10 := by
      simp only [List.mem_cons, List.not_mem_nil, or_false] at hb
      simpa [CRu, LFu] using hb
    omega

theorem chunks_length_le (chunks : List (List Nat)) :
    chunks.length ≤ ((chunks.map encodeChunk).flatten).length := by
  induction chunks with
  | nil => simp
  | cons ch t ih =>
    rw [List.map_cons, List.flatten_cons, List.length_append, List.length_cons]
    have h1 : 1 ≤ (encodeChunk ch).length := by
      unfold encodeChunk
      simp only [List.length_append, List.length_cons, List.length_nil]
      omega
    omega

/-! ### Lemmas for addSequentialNumbers (C7) -/

theorem firstDedup_nodup (l : List String) : (firstDedup l).Nodup := by
  induction l with
  | nil => simp [firstDedup]
  | cons a t ih =>
    rw [firstDedup, List.nodup_cons]
    refine ⟨fun hmem => ?_, ih.filter _⟩
    have := List.of_mem_filter hmem
    simp at this

theorem mem_firstDedup (x : String) (l : List String) : x ∈ firstDedup l ↔ x ∈ l := by
  induction l with
  | nil => simp [firstDedup]
  | cons a t ih =>
    rw [firstDedup, List.mem_cons, List.mem_cons]
    constructor
    · rintro (rfl | hx)
      · exact .inl rfl
      · exact .inr (ih.mp (List.mem_of_mem_filter hx))
    · rintro (rfl | hx)
      · exact .inl rfl
      · by_cases hxa : x = a
        · exact .inl hxa
        · exact .inr (List.mem_filter.mpr ⟨ih.mpr hx, by simpa using hxa⟩)

theorem sortedCountryKeys_sorted (ps : List ProxyObj) :
    (sortedCountryKeys ps).Pairwise (· ≤ ·) :=
  List.sorted_insertionSort _ _

theorem sortedCountryKeys_nodup (ps : List ProxyObj) : (sortedCountryKeys ps).Nodup :=
  ((List.perm_insertionSort _ _).nodup_iff).mpr (firstDedup_nodup _)

theorem mem_sortedCountryKeys (x : String) (ps : List ProxyObj) :
    x ∈ sortedCountryKeys ps ↔ ∃ p ∈ ps, p.country = x := by
  unfold sortedCountryKeys
  rw [(List.perm_insertionSort _ _).mem_iff, mem_firstDedup, List.mem_map]

theorem sortedCountryKeys_filter (ps : List ProxyObj) (c : String) :
    sortedCountryKeys (ps.filter (fun p => !(p.country == c)))
      = (sortedCountryKeys ps).filter (fun k => !(k == c)) := by
  refine List.eq_of_perm_of_sorted ?_ (sortedCountryKeys_sorted _)
    ((sortedCountryKeys_sorted ps).filter _)
  refine (List.perm_ext_iff_of_nodup (sortedCountryKeys_nodup _)
    ((sortedCountryKeys_nodup ps).filter _)).mpr fun a => ?_
  rw [mem_sortedCountryKeys, List.mem_filter, mem_sortedCountryKeys]
  constructor
  · rintro ⟨p, hp, rfl⟩
    have hmem := List.mem_of_mem_filter hp
    have hne := List.of_mem_filter hp
    simp only [Bool.not_eq_eq_eq_not, Bool.not_false, beq_eq_false_iff_ne] at hne
    refine ⟨⟨p, hmem, rfl⟩, ?_⟩
    simpa using hne
  · rintro ⟨⟨p, hp, rfl⟩, hne⟩
    refine ⟨p, List.mem_filter.mpr ⟨hp, ?_⟩, rfl⟩
    simpa using hne

theorem groupByCountry_filter_ne (ps : List ProxyObj) (c k : String) (h : ¬ k = c) :
    groupByCountry (ps.filter (fun p => !(p.country == c))) k = groupByCountry ps k := by
  unfold groupByCountry
  rw [List.filter_filter]
  refine List.filter_congr fun p _ => ?_
  by_cases hk : (p.country == k) = true
  · have hpk : p.country = k := eq_of_beq hk
    have hc2 : (p.country == c) = false := by
      rw [hpk]
      simpa using h
    simp [hk, hc2]
  · simp [hk]

theorem flatMap_skip_key (keys : List String) (F G : String → List String) (c : String)
    (hFc : F c = []) (hFG : ∀ k, ¬ k = c → F k = G k) :
    keys.flatMap F = (keys.filter (fun k => !(k == c))).flatMap G := by
  induction keys with
  | nil => rfl
  | cons k t ih =>
    rw [List.flatMap_cons, List.filter_cons]
    by_cases hk : k = c
    · subst hk
      rw [hFc]
      simpa using ih
    · have hb : (!(k == c)) = true := by simpa using hk
      rw [if_pos hb, List.flatMap_cons, hFG k hk, ih]

/-- **C8.** In the `top5Data` output of `saveResults`, every country group
emits at most 5 entries (`index < 5` keeps the first five of the group),
and since the group inherits the ascending `avgLatency` order of the sorted
`passedIPs` list, its emitted members are non-decreasing in average
latency. -/
theorem top5_cap_and_sorted (rs : List TestResult) (c : String) :
    ((groupLookup (countryGroups (sortedPassed rs)) c).take 5).length ≤ 5 ∧
    ((groupLookup (countryGroups (sortedPassed rs)) c).take 5).Pairwise latLe := by
  rw [groupLookup_countryGroups]
  constructor
  · simp
  · have hs : (sortedPassed rs).Pairwise latLe := List.sorted_insertionSort latLe _
    exact List.Pairwise.sublist (List.take_sublist _ _) (hs.filter _)

/-- **C6 counterexample.** In `src/ip_tq.js`, a failed TLS upgrade of a
cached TCP connection raises the typed TLS error but the pool map still
holds the entry for the endpoint afterwards — now half-upgraded, with its
broken `tlsSocket` assigned — contradicting the claim that after any
acquire failure no entry remains for the endpoint. -/
theorem tq_upgrade_failure_leaves_entry :
    (tqGetConnection wTqPool "5.6.7.8:443" true true false 2000 99).1
      = .error .tlsError ∧
    (tqGetConnection wTqPool "5.6.7.8:443" true true false 2000 99).2.findKey "5.6.7.8:443"
      = some { connId := 8, destroyed := false, hasTls := true, lastUsed := 2000 } :=
  ⟨rfl, rfl⟩

/-- **C6 as amended.** In the `iptest.js` pool, when the pool holds no
stale destroyed socket for the endpoint beforehand, any acquire failure
(TCP or TLS, new-connection or cached-connection-upgrade path) raises a
typed error and leaves no entry for that endpoint in the pool map.  (In
the `ip_tq.js` pool this fails on the cached-connection TLS-upgrade path:
see `tq_upgrade_failure_leaves_entry`.) -/
theorem ipt_acquire_failure_no_entry (p : IptPool) (key : String)
    (useTLS tcpOk tlsOk : Bool) (now freshId : Nat) (e : PoolError)
    (hlive : p.findKey key = none ∨ ∃ c, p.findKey key = some c ∧ c.destroyed = false)
    (herr : (iptGetConnection p key useTLS tcpOk tlsOk now freshId).1 = .error e) :
    (iptGetConnection p key useTLS tcpOk tlsOk now freshId).2.findKey key = none := by
  unfold IptPool.findKey at hlive ⊢
  rcases hlive with hnone | ⟨c, hsome, hd⟩
  · cases tcpOk
    case false => simp [iptGetConnection, hnone]
    case true =>
      cases useTLS
      case false => simp [iptGetConnection, hnone] at herr
      case true =>
        cases tlsOk
        case false => simp [iptGetConnection, hnone]
        case true => simp [iptGetConnection, hnone] at herr
  · cases hh : c.hasTls
    case false =>
      cases useTLS
      case false => simp [iptGetConnection, hsome, hd, hh] at herr
      case true =>
        cases tlsOk
        case false => simp [iptGetConnection, hsome, hd, hh, findConn_delete_self]
        case true => simp [iptGetConnection, hsome, hd, hh] at herr
    case true =>
      simp [iptGetConnection, hsome, hd, hh] at herr

/-- **C4 counterexample.** The chunked round trip does not reproduce
arbitrary byte sequences: for the single-byte body `0xFF`, the decoder
operates on `bodyBuffer.toString()` — a lossy UTF-8 decode — so the decoded
result is the replacement character U+FFFD (bytes `EF BF BD`), not the
original byte `FF`. -/
theorem chunked_roundtrip_fails_nonascii :
    decodeChunked (bufToUnits (encodeChunked [[255]])) = [65533] ∧
    unitsToBytes (decodeChunked (bufToUnits (encodeChunked [[255]]))) = [239, 191, 189] ∧
    ([65533] : List Nat) ≠ [255] ∧ ([239, 191, 189] : List Nat) ≠ [255] := by
  refine ⟨by decide, by decide, by decide, by decide⟩

/-- **C4 as amended.** For every *ASCII* byte sequence (every byte below
0x80) split into arbitrary non-empty chunks: encoding it as HTTP
chunked-transfer frames (hex length, CRLF, payload, CRLF, terminated by a
zero-length chunk) and running the response assembler's chunked decoder on
the resulting string reproduces exactly the original bytes.  For non-ASCII
bytes the `toString` conversion breaks the round trip (see
`chunked_roundtrip_fails_nonascii`). -/
theorem chunked_roundtrip_ascii (chunks : List (List Nat))
    (h : ∀ ch ∈ chunks, ch ≠ [] ∧ ∀ b ∈ ch, b < 128) :
    decodeChunked (bufToUnits (encodeChunked chunks)) = chunks.flatten := by
  rw [bufToUnits_ascii _ (encodeChunked_ascii chunks fun ch hch => (h ch hch).2)]
  unfold decodeChunked
  have hlen : chunks.length < (encodeChunked chunks).length + 1 := by
    have hle := chunks_length_le chunks
    unfold encodeChunked
    simp only [List.length_append]
    omega
  have hmain := decodeChunkedAux_encode chunks [] [] ((encodeChunked chunks).length + 1)
    (fun ch hch => (h ch hch).1) hlen
  simpa [encodeChunked] using hmain

/-- Instantiation of `chunked_roundtrip_ascii` at the two-chunk ASCII body
`"a" / "bc"`. -/
theorem chunked_roundtrip_ascii_witness :
    (∀ ch ∈ [[97], [98, 99]], ch ≠ ([] : List Nat) ∧ ∀ b ∈ ch, b < 128) ∧
    decodeChunked (bufToUnits (encodeChunked [[97], [98, 99]])) = [97, 98, 99] := by
  refine ⟨by decide, ?_⟩
  have hrt := chunked_roundtrip_ascii [[97], [98, 99]] (by decide)
  simpa using hrt

/-- **C7 counterexample.** A group below the minimum-size threshold (one
Japanese proxy with `limitPerCountry = 5`) contributes its members to
*neither* output of `addSequentialNumbers`: contrary to the claim, the
member is absent from `all` as well (the `groupProxies.length >=
limitPerCountry` test guards both pushes). -/
theorem addseq_undersized_absent_from_all :
    (groupByCountry [wProxyJP] "JP").length = 1 ∧ (1 : Nat) < 5 ∧
    (addSequentialNumbers [wProxyJP] 5).all = [] ∧
    (addSequentialNumbers [wProxyJP] 5).limited = [] :=
  ⟨rfl, by decide, rfl, rfl⟩

/-- **C7 as amended.** A group below the minimum-size threshold contributes
zero entries to *both* outputs of `addSequentialNumbers` — not only to the
capped `limited` ("top") output but also to `all`: removing all of the
undersized group's members from the input changes neither output. -/
theorem addseq_undersized_contributes_nothing (ps : List ProxyObj) (limit : Nat) (c : String)
    (h : (groupByCountry ps c).length < limit) :
    addSequentialNumbers ps limit
      = addSequentialNumbers (ps.filter (fun p => !(p.country == c))) limit := by
  have hgroup : ∀ k, ¬ k = c →
      groupByCountry (ps.filter (fun p => !(p.country == c))) k = groupByCountry ps k :=
    fun k hk => groupByCountry_filter_ne ps c k hk
  unfold addSequentialNumbers
  rw [sortedCountryKeys_filter ps c]
  have hFc1 : (if limit ≤ (groupByCountry ps c).length
      then numberedEntries (groupByCountry ps c) else []) = [] :=
    if_neg (Nat.not_le.mpr h)
  have hFc2 : (if limit ≤ (groupByCountry ps c).length
      then numberedEntries ((groupByCountry ps c).take limit) else []) = [] :=
    if_neg (Nat.not_le.mpr h)
  refine congrArg₂ NumberedProxies.mk ?_ ?_
  · refine flatMap_skip_key _ _ _ c hFc1 fun k hk => ?_
    rw [hgroup k hk]
  · refine flatMap_skip_key _ _ _ c hFc2 fun k hk => ?_
    rw [hgroup k hk]

/-- Instantiation of `addseq_undersized_contributes_nothing` on a two-group
input where the Japanese group (one member) is below the threshold 2. -/
theorem addseq_undersized_contributes_nothing_witness :
    (groupByCountry [wProxyJP, wProxyUS] "JP").length < 2 ∧
    addSequentialNumbers [wProxyJP, wProxyUS] 2
      = addSequentialNumbers
          ([wProxyJP, wProxyUS].filter (fun p => !(p.country == "JP"))) 2 :=
  ⟨by decide, addseq_undersized_contributes_nothing [wProxyJP, wProxyUS] 2 "JP" (by decide)⟩

/-- Instantiation of `ipt_acquire_failure_no_entry` at the concrete pool
`wPoolRaw` (one live TCP-only entry) with a failing TLS upgrade. -/
theorem ipt_acquire_failure_no_entry_witness :
    (wPoolRaw.findKey "5.6.7.8:443" = none ∨
      ∃ c, wPoolRaw.findKey "5.6.7.8:443" = some c ∧ c.destroyed = false) ∧
    (iptGetConnection wPoolRaw "5.6.7.8:443" true true false 2000 9).1 = .error .tlsError ∧
    (iptGetConnection wPoolRaw "5.6.7.8:443" true true false 2000 9).2.findKey "5.6.7.8:443"
      = none :=
  ⟨Or.inr ⟨wConnRaw, rfl, rfl⟩, rfl,
   ipt_acquire_failure_no_entry wPoolRaw "5.6.7.8:443" true true false 2000 9 .tlsError
     (Or.inr ⟨wConnRaw, rfl, rfl⟩) rfl⟩

/-- **C10.** The average-latency computation is total: for an empty latency
list (zero successful attempts) `calculateAverage` returns `0` instead of
evaluating the division, so finalization never divides by zero. -/
theorem calculateAverage_empty : calculateAverage [] = 0 := rfl

/-- **C9.** The encoded tunnel-handshake message of
`generateVLESSHandshake`: byte 0 is the protocol version 0, bytes 1-16 are
the 16 bytes of the configured UUID, byte 17 is the addon length 0, bytes
18-19 are the target port in big-endian order, byte 20 is the address-type
selector 1 (IPv4), the remaining 4 bytes are the IPv4 target address, and
the total length is 1+16+1+2+1 plus the 4 address bytes. -/
theorem vless_handshake_layout :
    generateVLESSHandshake.length = 1 + 16 + 1 + 2 + 1 + 4 ∧
    generateVLESSHandshake.take 1 = [0] ∧
    (generateVLESSHandshake.drop 1).take 16 = uuidToBytes vlessUuid ∧
    (uuidToBytes vlessUuid).length = 16 ∧
    generateVLESSHandshake[17]? = some 0 ∧
    (generateVLESSHandshake.drop 18).take 2 = [vlessTargetPort / 256, vlessTargetPort % 256] ∧
    (generateVLESSHandshake[18]?.getD 0) * 256 + (generateVLESSHandshake[19]?.getD 0)
      = vlessTargetPort ∧
    generateVLESSHandshake[20]? = some 1 ∧
    generateVLESSHandshake.drop 21 = [1, 1, 1, 1] := by decide

/-- **C3** (the code violates the claim).  In the tunnel-probe program of
`src/nodejs/vless.js`, the attempt timeout handler (lines 681-687) calls
`handleTestCompletion` without setting `testCompleted`, and the `close`
handler (lines 740-747) does the same; since `ws.terminate()` in the
timeout handler always produces a subsequent `close` event, the two
completion paths both run for a single attempt: after the event sequence
timeout-then-close the attempt has been counted twice, not exactly once. -/
theorem timeout_close_double_completion :
    (vlessAttemptStep (vlessAttemptStep attemptInit .timeout) .close).completions = 2 := rfl

/-- **C2** (the code violates the claim).  With 51 endpoints (and
`MAX_CONCURRENT = 50`, `TESTS_PER_IP = 4` as configured), the scheduler of
`src/nodejs/vless.js` admits 50 attempts; when endpoint 0's first attempt
fails, `handleTestCompletion` frees its slot, schedules a delayed re-round
and backfills the slot with endpoint 50, and when the re-round timer fires
it calls `createWebSocketConnection` without any concurrency check, so
`activeConnections` reaches 51 > `MAX_CONCURRENT`. -/
theorem activeConnections_exceeds_limit :
    (schedRun (schedInit 51) [.finish 0 false, .fireRetry 0]).map
      (fun s => s.activeConnections) = some 51 ∧ MAX_CONCURRENT < 51 :=
  ⟨by decide, by decide⟩

/-- **C1.** For an endpoint that has completed its `TESTS_PER_IP`
repetitions, `isPassed` holds iff the success count equals `TESTS_PER_IP`;
in particular an endpoint with at least one failed attempt is not passed
and no entry derived from it occurs in the `passedIPs` collection that
every passed-results output of `saveResults` is built from. -/
theorem passed_iff_all_successes (r : TestResult) (rs : List TestResult)
    (hc : r.successes + r.failures = TESTS_PER_IP) :
    (isPassed r = true ↔ r.successes = TESTS_PER_IP) ∧
    (0 < r.failures → isPassed r = false ∧ ∀ x ∈ passedIPs rs, x.res ≠ r) := by
  refine ⟨by simp [isPassed], fun hf => ⟨?_, ?_⟩⟩
  · have hs : r.successes ≠ TESTS_PER_IP := by omega
    simpa [isPassed] using hs
  · intro x hx hEq
    simp only [passedIPs, List.mem_map, List.mem_filter] at hx
    obtain ⟨r1, ⟨_, hr1⟩, hxr⟩ := hx
    have hx1 : x.res = r1 := by rw [← hxr]; rfl
    have : r1.successes = TESTS_PER_IP := by simpa using hr1
    rw [hx1.symm.trans hEq] at this
    omega

/-- Instantiation of `passed_iff_all_successes` at the concrete completed
result `wResult` (3 successes, 1 failure). -/
theorem passed_iff_all_successes_witness :
    (wResult.successes + wResult.failures = TESTS_PER_IP) ∧
    ((isPassed wResult = true ↔ wResult.successes = TESTS_PER_IP) ∧
     (0 < wResult.failures →
       isPassed wResult = false ∧ ∀ x ∈ passedIPs [wResult], x.res ≠ wResult)) :=
  ⟨by decide, passed_iff_all_successes wResult [wResult] (by decide)⟩

end IpTest
